import Mathlib

/-!
Verification of the provider-abstraction and streaming core of the
repository (src/services/gemini.ts) against its specification.

The TypeScript source is shallowly embedded below.  Strings handled by
structural algorithms (the SSE stream decoder) are modelled as `List Char`;
configuration-level strings stay `String`.  Platform builtins used by the
source are modelled as executable Lean functions:
  - `atob` (base64 decoding, throwing on malformed input) is `atob` below,
    returning `Option`;
  - `JSON.parse` is the fuel-based recursive-descent parser `jsonParse`;
  - `TextDecoder.decode(value, \x7bstream: true\x7d)` is modelled as the
    identity on already-decoded character chunks: the web platform
    guarantees that streaming text decoding is invariant under re-chunking
    of the byte stream, so read chunks are modelled at character
    granularity;
  - `fetch` and the SDK transport are modelled by passing the adapter
    outcome (`Except String String`, an error message or a final text)
    into the dispatcher explicitly.
-/

/-- Mirrors `AIProvider` in src/types.ts. -/
inductive AIProvider where
  | google
  | openrouter
  | local
deriving DecidableEq, Repr

/-- Mirrors `AttachedFile` in src/types.ts (`data` is a base64 payload). -/
structure AttachedFile where
  name : String
  type : String
  size : Nat
  data : String
deriving DecidableEq, Repr

/-- Mirrors `AppSettings` in src/types.ts.  Optional fields are `Option`;
the JavaScript code tests them for truthiness, so the empty string acts
like an absent value at each use site, which is modelled explicitly. -/
structure AppSettings where
  provider : AIProvider
  apiKey : String
  model : String
  baseUrl : Option String
  systemInstruction : Option String
deriving DecidableEq, Repr

/-- Whitespace recognised by `String.prototype.trim` (restricted to the
ASCII whitespace actually occurring in SSE streams). -/
def isWSChar (c : Char) : Bool :=
  c = ' ' || c = '\t' || c = '\n' || c = '\r'

/-- Model of `line.trim()`: strip leading and trailing whitespace. -/
def trimChars (l : List Char) : List Char :=
  ((l.dropWhile isWSChar).reverse.dropWhile isWSChar).reverse

/-- Does `n` occur as a contiguous run inside `h`? -/
def listHasInfix (n : List Char) : List Char → Bool
  | [] => n.isEmpty
  | c :: t => n.isPrefixOf (c :: t) || listHasInfix n t

/-- Model of `hay.includes(needle)` on strings. -/
def containsSub (needle hay : String) : Bool :=
  listHasInfix needle.toList hay.toList

/-- Model of `s.startsWith(p)` on strings. -/
def strStartsWith (p s : String) : Bool :=
  p.toList.isPrefixOf s.toList

/-- Value of one base64 alphabet character. -/
def b64Val (c : Char) : Option Nat :=
  if 'A' ≤ c && c ≤ 'Z' then some (c.toNat - 65)
  else if 'a' ≤ c && c ≤ 'z' then some (c.toNat - 97 + 26)
  else if '0' ≤ c && c ≤ '9' then some (c.toNat - 48 + 52)
  else if c = '+' then some 62
  else if c = '/' then some 63
  else none

/-- Decode groups of base64 characters (padding already removed) into
byte values; fails on a non-alphabet character or a leftover length of 1. -/
def b64Decode : List Char → Option (List Nat)
  | [] => some []
  | [a, b] => do
      let va ← b64Val a
      let vb ← b64Val b
      pure [(va * 4 + vb / 16) % 256]
  | [a, b, c] => do
      let va ← b64Val a
      let vb ← b64Val b
      let vc ← b64Val c
      pure [(va * 4 + vb / 16) % 256, ((vb % 16) * 16 + vc / 4) % 256]
  | a :: b :: c :: d :: rest => do
      let va ← b64Val a
      let vb ← b64Val b
      let vc ← b64Val c
      let vd ← b64Val d
      let tail ← b64Decode rest
      pure ((va * 4 + vb / 16) % 256 :: ((vb % 16) * 16 + vc / 4) % 256 ::
            ((vc % 4) * 64 + vd) % 256 :: tail)
  | [_] => none

/-- Strip up to two trailing padding characters from a base64 payload. -/
def b64StripPad (l : List Char) : List Char :=
  match l.reverse with
  | '=' :: '=' :: r => r.reverse
  | '=' :: r => r.reverse
  | _ => l

/-- Model of the browser builtin `atob`: forgiving base64 decoding to a
latin-1 string, `none` where the builtin throws `InvalidCharacterError`. -/
def atob (s : String) : Option String :=
  let cs := b64StripPad (s.toList.filter (fun c => !isWSChar c))
  (b64Decode cs).map (fun bytes => String.mk (bytes.map Char.ofNat))

/-- JSON value, the result type of the model of `JSON.parse`. -/
inductive Json where
  | null : Json
  | bool : Bool → Json
  | num : Int → Json
  | str : List Char → Json
  | arr : List Json → Json
  | obj : List (List Char × Json) → Json

/-- Skip JSON whitespace. -/
def skipWs (l : List Char) : List Char :=
  l.dropWhile isWSChar

/-- Hexadecimal digit value. -/
def hexVal (c : Char) : Option Nat :=
  if '0' ≤ c && c ≤ '9' then some (c.toNat - 48)
  else if 'a' ≤ c && c ≤ 'f' then some (c.toNat - 97 + 10)
  else if 'A' ≤ c && c ≤ 'F' then some (c.toNat - 65 + 10)
  else none

/-- Single-character JSON string escapes. -/
def escChar (c : Char) : Option Char :=
  if c = '"' then some '"'
  else if c = '\\' then some '\\'
  else if c = '/' then some '/'
  else if c = 'n' then some '\n'
  else if c = 't' then some '\t'
  else if c = 'r' then some '\r'
  else if c = 'b' then some (Char.ofNat 8)
  else if c = 'f' then some (Char.ofNat 12)
  else none

/-- Parse the body of a JSON string after the opening quote; returns the
decoded characters and the remainder after the closing quote. -/
def parseStrBody : List Char → Option (List Char × List Char)
  | [] => none
  | '"' :: r => some ([], r)
  | '\\' :: 'u' :: h1 :: h2 :: h3 :: h4 :: r => do
      let v1 ← hexVal h1
      let v2 ← hexVal h2
      let v3 ← hexVal h3
      let v4 ← hexVal h4
      let p ← parseStrBody r
      pure (Char.ofNat (((v1 * 16 + v2) * 16 + v3) * 16 + v4) :: p.1, p.2)
  | '\\' :: e :: r => do
      let c ← escChar e
      let p ← parseStrBody r
      pure (c :: p.1, p.2)
  | c :: r => do
      let p ← parseStrBody r
      pure (c :: p.1, p.2)

/-- Parse one or more decimal digits. -/
def parseDigits (s : List Char) : Option (Nat × List Char) :=
  let ds := s.takeWhile Char.isDigit
  if ds.isEmpty then none
  else some (ds.foldl (fun a c => a * 10 + (c.toNat - 48)) 0, s.dropWhile Char.isDigit)

/-- Parse a JSON number (fractional and exponent parts are consumed; the
retained value is the integer part, which is all the embedded code ever
reads). -/
def parseNum (s : List Char) : Option (Json × List Char) :=
  let p := match s with
    | '-' :: r => (true, r)
    | _ => (false, s)
  match parseDigits p.2 with
  | none => none
  | some (n, r) =>
    let r1 := match r with
      | '.' :: r2 => r2.dropWhile Char.isDigit
      | _ => r
    let r2 := match r1 with
      | 'e' :: r3 =>
        (match r3 with
         | '+' :: r4 => r4
         | '-' :: r4 => r4
         | _ => r3).dropWhile Char.isDigit
      | 'E' :: r3 =>
        (match r3 with
         | '+' :: r4 => r4
         | '-' :: r4 => r4
         | _ => r3).dropWhile Char.isDigit
      | _ => r1
    some (.num (if p.1 then -(n : Int) else (n : Int)), r2)

mutual

/-- Fuel-based recursive-descent JSON value parser (model of the platform
`JSON.parse`; the fuel passed at top level always suffices for real input). -/
def parseVal : Nat → List Char → Option (Json × List Char)
  | 0, _ => none
  | fuel + 1, s =>
    match skipWs s with
    | 'n' :: 'u' :: 'l' :: 'l' :: r => some (.null, r)
    | 't' :: 'r' :: 'u' :: 'e' :: r => some (.bool true, r)
    | 'f' :: 'a' :: 'l' :: 's' :: 'e' :: r => some (.bool false, r)
    | '"' :: r => (parseStrBody r).map (fun p => (.str p.1, p.2))
    | '\x5b' :: r =>
      (match skipWs r with
       | '\x5d' :: r2 => some (.arr [], r2)
       | _ => (parseArrElems fuel r).map (fun p => (.arr p.1, p.2)))
    | '\x7b' :: r =>
      (match skipWs r with
       | '\x7d' :: r2 => some (.obj [], r2)
       | _ => (parseObjFields fuel r).map (fun p => (.obj p.1, p.2)))
    | c :: r => if c = '-' || c.isDigit then parseNum (c :: r) else none
    | [] => none

/-- Parse the comma-separated elements of a non-empty JSON array. -/
def parseArrElems : Nat → List Char → Option (List Json × List Char)
  | 0, _ => none
  | fuel + 1, s => do
    let p ← parseVal fuel s
    match skipWs p.2 with
    | ',' :: r2 => do
        let q ← parseArrElems fuel r2
        pure (p.1 :: q.1, q.2)
    | '\x5d' :: r2 => pure ([p.1], r2)
    | _ => none

/-- Parse the comma-separated fields of a non-empty JSON object. -/
def parseObjFields : Nat → List Char → Option (List (List Char × Json) × List Char)
  | 0, _ => none
  | fuel + 1, s =>
    match skipWs s with
    | '"' :: r => do
      let k ← parseStrBody r
      match skipWs k.2 with
      | ':' :: r2 => do
        let v ← parseVal fuel r2
        match skipWs v.2 with
        | ',' :: r4 => do
            let fs ← parseObjFields fuel r4
            pure ((k.1, v.1) :: fs.1, fs.2)
        | '\x7d' :: r4 => pure ([(k.1, v.1)], r4)
        | _ => none
      | _ => none
    | _ => none

end

/-- Model of `JSON.parse`: parse a complete JSON document, failing if
anything but whitespace remains. -/
def jsonParse (s : List Char) : Option Json :=
  match parseVal (2 * s.length + 2) s with
  | some (j, r) => if skipWs r = [] then some j else none
  | none => none

/-- Field access on a JSON object (optional chaining `obj?.key`). -/
def jGet (j : Json) (key : List Char) : Option Json :=
  match j with
  | .obj fs => (fs.find? (fun p => p.1 == key)).map (fun p => p.2)
  | _ => none

/-- Index access on a JSON array (optional chaining `arr?.[i]`). -/
def jIndex (j : Json) (i : Nat) : Option Json :=
  match j with
  | .arr xs => xs[i]?
  | _ => none

/-- Model of `json.choices?.[0]?.delta?.content || ''`: the delta string,
with the empty string when any link of the chain is absent or the content
is not a (truthy) string. -/
def deltaContent (j : Json) : List Char :=
  match (do
    let c ← jGet j "choices".toList
    let c0 ← jIndex c 0
    let d ← jGet c0 "delta".toList
    jGet d "content".toList) with
  | some (.str s) => s
  | _ => []

/-- Model of the body of the stream-decoding `try` block: `none` when
`JSON.parse` throws (the `catch` path), otherwise the extracted delta. -/
def extractDelta (s : List Char) : Option (List Char) :=
  (jsonParse s).map deltaContent

/-- Model of `buffer.split('\n')` in JavaScript: the list of newline
separated segments; never empty. -/
def splitNl : List Char → List (List Char)
  | [] => [[]]
  | c :: cs =>
    if c = '\n' then [] :: splitNl cs
    else
      match splitNl cs with
      | [] => [[c]]
      | l :: ls => (c :: l) :: ls

/-- The pair (complete lines, retained buffer) produced by
`const lines = buffer.split('\n'); buffer = lines.pop() || ''`:
all segments before the last newline, and the trailing partial segment. -/
def splitLines : List Char → List (List Char) × List Char
  | [] => ([], [])
  | c :: cs =>
    let r := splitLines cs
    if c = '\n' then ([] :: r.1, r.2)
    else
      match r.1 with
      | [] => ([], c :: r.2)
      | l :: ls => ((c :: l) :: ls, r.2)

/-- The prefix `data: ` checked by the decoder, as characters. -/
def dataPrefix : List Char := "data: ".toList

/-- The end-of-stream sentinel payload `[DONE]`, as characters. -/
def doneSentinel : List Char := "[DONE]".toList

/-- One iteration of the decoder loop body `for (const line of lines)`, acting
on the pair (running cumulative text, values passed to the callback so
far).  Mirrors src/services/gemini.ts lines 180-197. -/
def procLine (acc : List Char × List (List Char)) (line : List Char) :
    List Char × List (List Char) :=
  let trimmed := trimChars line
  if dataPrefix.isPrefixOf trimmed then
    let dataStr := trimmed.drop 6
    if dataStr = doneSentinel then acc
    else
      match extractDelta dataStr with
      | none => acc
      | some delta =>
        if delta = [] then acc
        else (acc.1 ++ delta, acc.2 ++ [acc.1 ++ delta])
  else acc

/-- Decoder state: carry-over buffer for a partial line, cumulative text,
and the sequence of values passed to the stream callback. -/
structure DecState where
  buffer : List Char
  fullText : List Char
  cbs : List (List Char)
deriving DecidableEq, Repr

/-- One iteration of the outer read loop of the decoder on a decoded chunk:
append the chunk to the buffer, split on newline, keep the trailing
partial segment, process every complete line. -/
def feedChunk (st : DecState) (chunk : List Char) : DecState :=
  let lines := splitNl (st.buffer ++ chunk)
  let newBuf := lines.getLastD []
  let complete := lines.dropLast
  let r := complete.foldl procLine (st.fullText, st.cbs)
  ⟨newBuf, r.1, r.2⟩

/-- The whole read loop of `callOpenAICompatible` over a sequence of
decoded read chunks, starting from the empty buffer and empty cumulative
text.  The function returns `fullText`; the trailing buffer is dropped. -/
def runDecoder (chunks : List (List Char)) : DecState :=
  chunks.foldl feedChunk ⟨[], [], []⟩

/-- The streaming loop of `callGoogleGemini` (lines 57-66): each chunk
contributes `chunk.text`; falsy (empty) texts are skipped, non-empty texts
are appended to the running total, and the callback receives the new
total.  Results: (values passed to the callback, returned string). -/
def geminiStream (chunks : List String) : List String × String :=
  chunks.foldl
    (fun acc t => if t = "" then acc else (acc.1 ++ [acc.2 ++ t], acc.2 ++ t))
    ([], "")

/-- One content part of the native request body. -/
inductive GeminiPart where
  | inlineData (mimeType data : String)
  | text (t : String)
deriving DecidableEq, Repr

/-- The native request assembled by `callGoogleGemini` (lines 17-55). -/
structure GeminiRequest where
  model : String
  parts : List GeminiPart
  systemInstruction : Option String
  safetySettings : List (String × String)
  maxOutputTokens : Nat
  thinkingBudget : Option Nat
deriving DecidableEq, Repr

/-- Build the native request: one `inlineData` part per attachment pushed
in input order, then the text part with the prompt; model falls back to
the fixed default when unset; thinking budget is explicitly zero unless
the model id contains `gemini-2.5`. -/
def buildGeminiRequest (prompt : String) (files : List AttachedFile)
    (settings : AppSettings) : GeminiRequest :=
  let parts :=
    (files.foldl (fun acc f => acc ++ [GeminiPart.inlineData f.type f.data]) [])
      ++ [GeminiPart.text prompt]
  let modelId := if settings.model = "" then "gemini-3-pro-preview" else settings.model
  { model := modelId
    parts := parts
    systemInstruction := settings.systemInstruction
    safetySettings :=
      [("HARM_CATEGORY_DANGEROUS_CONTENT", "BLOCK_ONLY_HIGH"),
       ("HARM_CATEGORY_HATE_SPEECH", "BLOCK_ONLY_HIGH"),
       ("HARM_CATEGORY_HARASSMENT", "BLOCK_ONLY_HIGH"),
       ("HARM_CATEGORY_SEXUALLY_EXPLICIT", "BLOCK_ONLY_HIGH")]
    maxOutputTokens := 8192
    thinkingBudget :=
      if containsSub "gemini-2.5" modelId then none else some 0 }

/-- One element of the OpenAI-style user message content list. -/
inductive ContentPart where
  | text (t : String)
  | imageUrl (url : String)
deriving DecidableEq, Repr

/-- Content of one OpenAI-style chat message: a plain string (system
message) or a list of parts (user message). -/
inductive MsgContent where
  | str (s : String)
  | parts (ps : List ContentPart)
deriving DecidableEq, Repr

/-- One OpenAI-style chat message. -/
structure ChatMessage where
  role : String
  content : MsgContent
deriving DecidableEq, Repr

/-- The fixed disclosure note pushed for an attachment the OpenAI path
cannot parse natively (gemini.ts lines 123-128). -/
def disclosureNote (f : AttachedFile) : String :=
  "\n[系统提示: 文件 " ++ f.name ++ " (" ++ f.type ++
    ") 已上传，但当前使用的 OpenAI 兼容模式可能不支持原生解析此格式（除非是图片或纯文本）。如果模型回答无法读取文件，请尝试使用 Google Gemini 模式或将文件转换为纯文本。]"

/-- The text block embedding a decoded text attachment (lines 113-118). -/
def fileBlock (name decoded : String) : String :=
  "\n\n--- FILE START: " ++ name ++ " ---\n" ++ decoded ++ "\n--- FILE END ---\n"

/-- The content parts pushed for one attachment by the `for (const file of
files)` loop of `callOpenAICompatible` (lines 96-130): an image-URL part
for image MIME types; for plain-text, markdown, or JSON MIME types the
decoded text block, or nothing when `atob` throws; a disclosure note
otherwise. -/
def attachmentParts (f : AttachedFile) : List ContentPart :=
  if strStartsWith "image/" f.type then
    [ContentPart.imageUrl ("data:" ++ f.type ++ ";base64," ++ f.data)]
  else if f.type = "text/plain" || f.type = "text/markdown" || f.type = "application/json" then
    match atob f.data with
    | some decoded => [ContentPart.text (fileBlock f.name decoded)]
    | none => []
  else
    [ContentPart.text (disclosureNote f)]

/-- The user message content list: the prompt text part pushed first, then
the parts of each attachment in input order. -/
def userContent (prompt : String) (files : List AttachedFile) : List ContentPart :=
  files.foldl (fun acc f => acc ++ attachmentParts f) [ContentPart.text prompt]

/-- JavaScript truthiness of `settings.systemInstruction`. -/
def sysInstrSet (s : AppSettings) : Bool :=
  match s.systemInstruction with
  | none => false
  | some t => t ≠ ""

/-- The message list of `callOpenAICompatible` (lines 84-131): an optional
leading system message when the system instruction is truthy, then exactly
one user message. -/
def buildMessages (prompt : String) (files : List AttachedFile)
    (settings : AppSettings) : List ChatMessage :=
  (match settings.systemInstruction with
   | some t => if t = "" then [] else [ChatMessage.mk "system" (MsgContent.str t)]
   | none => []) ++
  [ChatMessage.mk "user" (MsgContent.parts (userContent prompt files))]

/-- Model of `baseUrl.replace(/\/$/, '')`: remove one trailing slash. -/
def stripTrailingSlash (s : String) : String :=
  match s.toList.reverse with
  | '/' :: r => String.mk r.reverse
  | _ => s

/-- Provider-specific default endpoint used when `settings.baseUrl` is
falsy (line 81). -/
def defaultBaseUrl (p : AIProvider) : String :=
  if p = AIProvider.openrouter then "https://openrouter.ai/api/v1"
  else "http://localhost:11434/v1"

/-- `settings.baseUrl || <provider default>` with JavaScript truthiness. -/
def resolveBaseUrl (s : AppSettings) : String :=
  match s.baseUrl with
  | some u => if u = "" then defaultBaseUrl s.provider else u
  | none => defaultBaseUrl s.provider

/-- The outbound HTTP request assembled by `callOpenAICompatible`
(lines 81-156): URL, headers in insertion order, and JSON body fields. -/
structure HttpRequest where
  url : String
  headers : List (String × String)
  model : String
  messages : List ChatMessage
  stream : Bool
  maxTokens : Nat
  temperature : ℚ
deriving DecidableEq, Repr

/-- Build the outbound HTTP request.  `origin` stands for the ambient
`window.location.origin`. -/
def buildHttpRequest (prompt : String) (files : List AttachedFile)
    (settings : AppSettings) (origin : String) : HttpRequest :=
  { url := stripTrailingSlash (resolveBaseUrl settings) ++ "/chat/completions"
    headers :=
      [("Content-Type", "application/json"),
       ("Authorization", "Bearer " ++ settings.apiKey)] ++
      (if settings.provider = AIProvider.openrouter then
        [("HTTP-Referer", origin), ("X-Title", "AuditAI")]
       else [])
    model := if settings.model = "" then "qwen2.5:14b" else settings.model
    messages := buildMessages prompt files settings
    stream := true
    maxTokens := 8192
    temperature := 3 / 10 }

/-- The error message thrown on a non-OK HTTP response (lines 158-161):
`Provider Error (<status>): <body>`. -/
def httpErrorMessage (status : Nat) (body : String) : String :=
  "Provider Error (" ++ toString status ++ "): " ++ body

/-- The message of the credential-check error (line 216). -/
def authErrorMsg : String := "API Key is missing. Please set it in Settings."

/-- The user-facing guidance rethrown on an entity-too-large failure
(line 230). -/
def payloadTooLargeMsg : String :=
  "文件过大，超过了当前API的直接处理限制。建议分割文件或提取文本后上传。"

/-- The dispatcher `generateCaseAnalysis` (lines 208-232), with the two
adapter transports modelled by their outcomes: `nativeResult` is what
`callGoogleGemini` would settle with, `httpResult` what
`callOpenAICompatible` would settle with (`Except.error m` standing for a
thrown error with message `m`).  The credential check precedes any
adapter call; the `catch` block converts any error whose message contains
`413` into the fixed guidance message and rethrows every other error
unchanged. -/
def generateCaseAnalysis (settings : AppSettings)
    (nativeResult httpResult : Except String String) : Except String String :=
  if settings.apiKey = "" ∧ settings.provider ≠ AIProvider.local then
    Except.error authErrorMsg
  else
    match (if settings.provider = AIProvider.google then nativeResult else httpResult) with
    | Except.ok t => Except.ok t
    | Except.error m =>
      if containsSub "413" m then Except.error payloadTooLargeMsg
      else Except.error m

/-- Spec-side description for the amended C3 claim: the cumulative
concatenations announced after each non-empty chunk, reading the chunk
texts as increments. -/
def cumConcats (acc : String) : List String → List String
  | [] => []
  | t :: ts => if t = "" then cumConcats acc ts else (acc ++ t) :: cumConcats (acc ++ t) ts

/-- Strict growth of one callback value to the next: the former is a
proper prefix of the latter. -/
def StrictPrefixStep (a b : List Char) : Prop := a <+: b ∧ a ≠ b

/-- Strict growth for `String`-valued callback traces. -/
def StrictPrefixStepS (a b : String) : Prop := a.toList <+: b.toList ∧ a ≠ b

/-- Invariant tying a cumulative text to the callback trace that produced
it: the trace grows strictly by prefixes and ends at the cumulative text. -/
def CbInv (full : List Char) (cbs : List (List Char)) : Prop :=
  cbs.Chain' StrictPrefixStep ∧ (cbs ≠ [] → cbs.getLast? = some full)

/-- `String` version of `CbInv` for the native adapter. -/
def CbInvS (full : String) (cbs : List String) : Prop :=
  cbs.Chain' StrictPrefixStepS ∧ (cbs ≠ [] → cbs.getLast? = some full)

theorem splitNl_nil : splitNl [] = [[]] := rfl

theorem splitNl_cons_nl (cs : List Char) : splitNl ('\n' :: cs) = [] :: splitNl cs := by
  simp [splitNl]

theorem splitNl_cons_ne (c : Char) (cs : List Char) (h : c ≠ '\n') :
    splitNl (c :: cs) =
      (match splitNl cs with
       | [] => [[c]]
       | l :: ls => (c :: l) :: ls) := by
  simp [splitNl, h]

theorem splitNl_ne_nil (l : List Char) : splitNl l ≠ [] := by
  induction l with
  | nil => simp [splitNl]
  | cons c cs ih =>
    by_cases h : c = '\n'
    · subst h; simp [splitNl_cons_nl]
    · rw [splitNl_cons_ne c cs h]
      cases hs : splitNl cs with
      | nil => simp
      | cons a as => simp

theorem splitLines_nil : splitLines [] = ([], []) := rfl

theorem splitLines_cons_nl (cs : List Char) :
    splitLines ('\n' :: cs) = ([] :: (splitLines cs).1, (splitLines cs).2) := by
  simp [splitLines]

theorem splitLines_cons_ne (c : Char) (cs : List Char) (h : c ≠ '\n') :
    splitLines (c :: cs) =
      (match (splitLines cs).1 with
       | [] => ([], c :: (splitLines cs).2)
       | l :: ls => ((c :: l) :: ls, (splitLines cs).2)) := by
  simp only [splitLines, if_neg h]

theorem getLastD_congr {α : Type} (l : List α) (d d' : α) (h : l ≠ []) :
    l.getLastD d = l.getLastD d' := by
  cases l with
  | nil => exact absurd rfl h
  | cons a t => rw [List.getLastD_cons, List.getLastD_cons]

/-- `splitLines` computes exactly the pair
(`split` minus its last segment, last segment of `split`). -/
theorem splitLines_eq (l : List Char) :
    splitLines l = ((splitNl l).dropLast, (splitNl l).getLastD []) := by
  induction l with
  | nil => simp [splitLines_nil, splitNl_nil]
  | cons c cs ih =>
    by_cases h : c = '\n'
    · subst h
      rw [splitLines_cons_nl, splitNl_cons_nl, ih]
      obtain ⟨x, xs, hx⟩ := List.exists_cons_of_ne_nil (splitNl_ne_nil cs)
      rw [hx]
      simp [List.getLastD_cons]
    · rw [splitLines_cons_ne c cs h, splitNl_cons_ne c cs h, ih]
      obtain ⟨x, xs, hx⟩ := List.exists_cons_of_ne_nil (splitNl_ne_nil cs)
      rw [hx]
      cases xs with
      | nil => simp
      | cons y ys =>
        simp only [List.dropLast_cons₂, List.getLastD_cons]

/-- Feeding the concatenation `a ++ b` through the line splitter yields
the complete lines of `a`, then the complete lines of the retained buffer
of `a` followed by `b`; the final buffer comes from that second stage.
This is the algebraic heart of chunk-boundary invariance. -/
theorem splitLines_append (a b : List Char) :
    splitLines (a ++ b) =
      ((splitLines a).1 ++ (splitLines ((splitLines a).2 ++ b)).1,
       (splitLines ((splitLines a).2 ++ b)).2) := by
  induction a with
  | nil => simp [splitLines_nil]
  | cons c cs ih =>
    by_cases h : c = '\n'
    · subst h
      rw [List.cons_append, splitLines_cons_nl, ih, splitLines_cons_nl]
      simp
    · rw [List.cons_append, splitLines_cons_ne c _ h, ih, splitLines_cons_ne c cs h]
      cases h1 : (splitLines cs).1 with
      | nil =>
        simp only [List.nil_append, List.cons_append]
        rw [splitLines_cons_ne c _ h]
      | cons l ls =>
        simp

/-- `feedChunk` restated through `splitLines`. -/
theorem feedChunk_eq (st : DecState) (chunk : List Char) :
    feedChunk st chunk =
      ⟨(splitLines (st.buffer ++ chunk)).2,
       ((splitLines (st.buffer ++ chunk)).1.foldl procLine (st.fullText, st.cbs)).1,
       ((splitLines (st.buffer ++ chunk)).1.foldl procLine (st.fullText, st.cbs)).2⟩ := by
  simp [feedChunk, splitLines_eq]

/-- Feeding one chunk equal to a concatenation is the same as feeding the
two pieces in order. -/
theorem feedChunk_append (st : DecState) (a b : List Char) :
    feedChunk st (a ++ b) = feedChunk (feedChunk st a) b := by
  rw [feedChunk_eq st (a ++ b), feedChunk_eq st a, feedChunk_eq]
  simp only [← List.append_assoc]
  rw [splitLines_append (st.buffer ++ a) b]
  simp [List.foldl_append]

/-- A chunk with no newline splits to no complete line and itself. -/
theorem splitLines_no_nl (l : List Char) (h : '\n' ∉ l) : splitLines l = ([], l) := by
  induction l with
  | nil => rfl
  | cons c cs ih =>
    have hc : c ≠ '\n' := fun he => h (he ▸ List.mem_cons_self c cs)
    have hcs : '\n' ∉ cs := fun hm => h (List.mem_cons_of_mem c hm)
    rw [splitLines_cons_ne c cs hc, ih hcs]

/-- The buffer retained by the splitter never contains a newline. -/
theorem splitLines_snd_no_nl (l : List Char) : '\n' ∉ (splitLines l).2 := by
  induction l with
  | nil => simp [splitLines_nil]
  | cons c cs ih =>
    by_cases h : c = '\n'
    · subst h; rw [splitLines_cons_nl]; exact ih
    · rw [splitLines_cons_ne c cs h]
      cases h1 : (splitLines cs).1 with
      | nil =>
        simp only []
        intro hm
        rcases List.mem_cons.mp hm with he | hm2
        · exact h he.symm
        · exact ih hm2
      | cons l0 ls => simpa using ih

/-- Feeding the empty chunk from a newline-free buffer changes nothing. -/
theorem feedChunk_nil (st : DecState) (h : '\n' ∉ st.buffer) : feedChunk st [] = st := by
  rw [feedChunk_eq]
  rw [List.append_nil, splitLines_no_nl st.buffer h]
  rfl

/-- Folding the decoder over a chunk list is the same as feeding the whole
concatenation at once (from any newline-free starting buffer). -/
theorem foldl_feedChunk_flatten (chunks : List (List Char)) (st : DecState)
    (h : '\n' ∉ st.buffer) :
    chunks.foldl feedChunk st = feedChunk st chunks.flatten := by
  induction chunks generalizing st with
  | nil => simp [List.foldl_nil, List.flatten_nil, feedChunk_nil st h]
  | cons c cs ih =>
    rw [List.foldl_cons, List.flatten_cons, feedChunk_append st c cs.flatten]
    have hb : '\n' ∉ (feedChunk st c).buffer := by
      rw [feedChunk_eq]
      exact splitLines_snd_no_nl (st.buffer ++ c)
    exact ih (feedChunk st c) hb

theorem strictPrefixStep_append (a t : List Char) (ht : t ≠ []) :
    StrictPrefixStep a (a ++ t) := by
  refine ⟨⟨t, rfl⟩, fun he => ht ?_⟩
  exact (List.self_eq_append_right.mp he).symm ▸ rfl

theorem strictPrefixStepS_append (a t : String) (ht : t ≠ "") :
    StrictPrefixStepS a (a ++ t) := by
  constructor
  · show a.toList <+: (a ++ t).toList
    have : (a ++ t).toList = a.toList ++ t.toList := String.data_append a t
    rw [this]
    exact ⟨t.toList, rfl⟩
  · intro he
    have hd : a.data = a.data ++ t.data := by
      have := congrArg String.data he
      rwa [String.data_append] at this
    have : t.data = [] := List.self_eq_append_right.mp hd
    exact ht (String.ext this)

/-- Appending a strictly larger element keeps the invariant. -/
theorem cbInv_push (full delta : List Char) (cbs : List (List Char))
    (h : CbInv full cbs) (hd : delta ≠ []) :
    CbInv (full ++ delta) (cbs ++ [full ++ delta]) := by
  obtain ⟨hchain, hlast⟩ := h
  constructor
  · rw [List.chain'_append]
    refine ⟨hchain, List.chain'_singleton _, ?_⟩
    intro x hx y hy
    cases cbs with
    | nil => simp at hx
    | cons c0 cs0 =>
      have h1 : (c0 :: cs0).getLast? = some full := hlast (by simp)
      rw [h1] at hx
      simp only [Option.mem_def, Option.some.injEq] at hx
      simp only [List.head?_cons, Option.mem_def, Option.some.injEq] at hy
      subst hx; subst hy
      exact strictPrefixStep_append full delta hd
  · intro _
    exact List.getLast?_concat _

/-- `procLine` preserves the callback-trace invariant. -/
theorem procLine_inv (acc : List Char × List (List Char)) (line : List Char)
    (h : CbInv acc.1 acc.2) :
    CbInv (procLine acc line).1 (procLine acc line).2 := by
  simp only [procLine]
  split
  · split
    · exact h
    · cases hx : extractDelta ((trimChars line).drop 6) with
      | none => exact h
      | some delta =>
        by_cases hd : delta = []
        · simp only [if_pos hd]
          exact h
        · simp only [if_neg hd]
          exact cbInv_push acc.1 delta acc.2 h hd
  · exact h

/-- Folding `procLine` over any line list preserves the invariant. -/
theorem foldl_procLine_inv (lines : List (List Char))
    (acc : List Char × List (List Char)) (h : CbInv acc.1 acc.2) :
    CbInv (lines.foldl procLine acc).1 (lines.foldl procLine acc).2 := by
  induction lines generalizing acc with
  | nil => exact h
  | cons l ls ih => exact ih (procLine acc l) (procLine_inv acc l h)

/-- `feedChunk` preserves the callback-trace invariant. -/
theorem feedChunk_inv (st : DecState) (chunk : List Char)
    (h : CbInv st.fullText st.cbs) :
    CbInv (feedChunk st chunk).fullText (feedChunk st chunk).cbs :=
  foldl_procLine_inv _ (st.fullText, st.cbs) h

/-- The decoder run satisfies the callback-trace invariant. -/
theorem runDecoder_inv (chunks : List (List Char)) :
    CbInv (runDecoder chunks).fullText (runDecoder chunks).cbs := by
  have base : CbInv (DecState.mk [] [] []).fullText (DecState.mk [] [] []).cbs :=
    ⟨List.chain'_nil, fun hne => absurd rfl hne⟩
  rw [runDecoder]
  generalize hst : DecState.mk [] [] [] = st at base
  clear hst
  induction chunks generalizing st with
  | nil => exact base
  | cons c cs ih => exact ih (feedChunk st c) (feedChunk_inv st c base)

theorem foldl_append_shift (l : List String) :
    ∀ s t : String, l.foldl (· ++ ·) (s ++ t) = s ++ l.foldl (· ++ ·) t := by
  induction l with
  | nil => intro s t; rfl
  | cons c cs ih =>
    intro s t
    simp only [List.foldl_cons]
    rw [String.append_assoc, ih]

theorem foldl_str_append (l : List String) (s : String) :
    l.foldl (· ++ ·) s = s ++ String.join l := by
  have h1 : l.foldl (· ++ ·) s = l.foldl (· ++ ·) (s ++ "") := by
    rw [String.append_empty]
  rw [h1, foldl_append_shift]
  rfl

theorem joinCons (c : String) (cs : List String) :
    String.join (c :: cs) = c ++ String.join cs := by
  show List.foldl (· ++ ·) ("" ++ c) cs = c ++ String.join cs
  rw [String.empty_append, foldl_str_append]

/-- Generalized run of the native streaming fold: the callback trace grows
by the cumulative concatenations of the non-empty chunk texts, the total
by the concatenation of all chunk texts. -/
theorem geminiStream_go (chunks : List String) :
    ∀ (cbs : List String) (full : String),
    chunks.foldl
        (fun acc t => if t = "" then acc else (acc.1 ++ [acc.2 ++ t], acc.2 ++ t))
        (cbs, full)
      = (cbs ++ cumConcats full chunks, full ++ String.join chunks) := by
  induction chunks with
  | nil =>
    intro cbs full
    simp [cumConcats, String.append_empty, show String.join [] = "" from rfl]
  | cons t ts ih =>
    intro cbs full
    by_cases ht : t = ""
    · subst ht
      rw [List.foldl_cons, if_pos rfl, ih, joinCons, String.empty_append]
      simp [cumConcats]
    · rw [List.foldl_cons, if_neg ht, ih, joinCons]
      simp [cumConcats, ht, List.append_assoc, String.append_assoc]

theorem cbInvS_push (full delta : String) (cbs : List String)
    (h : CbInvS full cbs) (hd : delta ≠ "") :
    CbInvS (full ++ delta) (cbs ++ [full ++ delta]) := by
  obtain ⟨hchain, hlast⟩ := h
  constructor
  · rw [List.chain'_append]
    refine ⟨hchain, List.chain'_singleton _, ?_⟩
    intro x hx y hy
    cases cbs with
    | nil => simp at hx
    | cons c0 cs0 =>
      have h1 : (c0 :: cs0).getLast? = some full := hlast (by simp)
      rw [h1] at hx
      simp only [Option.mem_def, Option.some.injEq] at hx
      simp only [List.head?_cons, Option.mem_def, Option.some.injEq] at hy
      subst hx; subst hy
      exact strictPrefixStepS_append full delta hd
  · intro _
    exact List.getLast?_concat _

/-- The native streaming fold keeps the `String` callback invariant. -/
theorem geminiStream_inv (chunks : List String) :
    CbInvS (geminiStream chunks).2 (geminiStream chunks).1 := by
  rw [geminiStream]
  have base : CbInvS (([] : List String), ("" : String)).2 ([], "").1 :=
    ⟨List.chain'_nil, fun hne => absurd rfl hne⟩
  generalize hst : (([] : List String), ("" : String)) = st at base
  clear hst
  induction chunks generalizing st with
  | nil => exact base
  | cons t ts ih =>
    simp only [List.foldl_cons]
    apply ih
    by_cases ht : t = ""
    · simpa [ht] using base
    · simp only [if_neg ht]
      exact cbInvS_push st.2 t st.1 base ht

theorem isPrefixOf_append_mono (n l b : List Char) (h : n.isPrefixOf l = true) :
    n.isPrefixOf (l ++ b) = true := by
  induction n generalizing l with
  | nil => simp [List.isPrefixOf]
  | cons x xs ih =>
    cases l with
    | nil => simp [List.isPrefixOf] at h
    | cons y ys =>
      simp only [List.isPrefixOf, Bool.and_eq_true] at h
      simp only [List.cons_append, List.isPrefixOf, Bool.and_eq_true]
      exact ⟨h.1, ih ys h.2⟩

theorem listHasInfix_append (n l b : List Char) (h : listHasInfix n l = true) :
    listHasInfix n (l ++ b) = true := by
  induction l with
  | nil =>
    simp only [listHasInfix, List.isEmpty_iff] at h
    subst h
    cases b with
    | nil => simp [listHasInfix]
    | cons c t => simp [listHasInfix, List.isPrefixOf]
  | cons c t ih =>
    simp only [listHasInfix, Bool.or_eq_true] at h
    rcases h with h | h
    · simp only [List.cons_append, listHasInfix, Bool.or_eq_true]
      exact Or.inl (isPrefixOf_append_mono n (c :: t) b h)
    · simp only [List.cons_append, listHasInfix, Bool.or_eq_true]
      exact Or.inr (ih h)

/-- Every true HTTP-413 failure message from the HTTP adapter is caught by
the substring test of the dispatcher. -/
theorem contains413_httpError (body : String) :
    containsSub "413" (httpErrorMessage 413 body) = true := by
  have hmsg : (httpErrorMessage 413 body).toList
      = "Provider Error (413): ".toList ++ body.toList := by
    show (("Provider Error (" ++ toString (413 : Nat) ++ "): ") ++ body).data
      = "Provider Error (413): ".data ++ body.data
    rw [String.data_append]
    have : ("Provider Error (" ++ toString (413 : Nat) ++ "): ") = "Provider Error (413): " := by
      decide
    rw [this]
  rw [containsSub, hmsg]
  exact listHasInfix_append _ _ _ (by decide)

theorem foldl_push_map {α β : Type} (g : α → β) (l : List α) :
    ∀ init : List β,
    l.foldl (fun acc f => acc ++ [g f]) init = init ++ l.map g := by
  induction l with
  | nil => intro init; simp
  | cons x xs ih =>
    intro init
    rw [List.foldl_cons, ih, List.map_cons]
    simp

theorem foldl_push_flatMap {α β : Type} (g : α → List β) (l : List α) :
    ∀ init : List β,
    l.foldl (fun acc f => acc ++ g f) init = init ++ l.flatMap g := by
  induction l with
  | nil => intro init; simp
  | cons x xs ih =>
    intro init
    rw [List.foldl_cons, ih, List.flatMap_cons]
    simp

/-- Claim C1: for every chunk sequence and both adapters (native `geminiStream`
and HTTP `runDecoder`), the sequence of values passed to the stream
callback grows strictly under string-prefix ordering, and when at least
one callback invocation occurs the final value equals the string the
adapter returns. -/
theorem c1_stream_callback_monotone :
    (∀ chunks : List String,
      (geminiStream chunks).1.Chain' StrictPrefixStepS ∧
      ((geminiStream chunks).1 ≠ [] →
        (geminiStream chunks).1.getLast? = some (geminiStream chunks).2)) ∧
    (∀ chunks : List (List Char),
      (runDecoder chunks).cbs.Chain' StrictPrefixStep ∧
      ((runDecoder chunks).cbs ≠ [] →
        (runDecoder chunks).cbs.getLast? = some (runDecoder chunks).fullText)) := by
  constructor
  · intro chunks
    exact geminiStream_inv chunks
  · intro chunks
    exact runDecoder_inv chunks

/-- Witness for C1 at concrete chunk sequences for both adapters. -/
theorem c1_stream_callback_monotone_witness :
    (geminiStream ["Hel", "", "lo"]).1.getLast? = some (geminiStream ["Hel", "", "lo"]).2 ∧
    (runDecoder ["data: \x7b\"choices\":[\x7b\"delta\":\x7b\"content\":\"A\"\x7d\x7d]\x7d\n".toList]).cbs.getLast?
      = some (runDecoder ["data: \x7b\"choices\":[\x7b\"delta\":\x7b\"content\":\"A\"\x7d\x7d]\x7d\n".toList]).fullText := by
  constructor
  · exact (c1_stream_callback_monotone.1 ["Hel", "", "lo"]).2 (by decide)
  · exact (c1_stream_callback_monotone.2
      ["data: \x7b\"choices\":[\x7b\"delta\":\x7b\"content\":\"A\"\x7d\x7d]\x7d\n".toList]).2 (by decide)

/-- Claim C2: the HTTP stream decoder is invariant under re-chunking of the
byte stream: any two chunkings with the same concatenation produce the
same final state, hence the same cumulative text and callback sequence. -/
theorem c2_chunk_boundary_invariance (cs1 cs2 : List (List Char))
    (h : cs1.flatten = cs2.flatten) :
    runDecoder cs1 = runDecoder cs2 := by
  have h1 := foldl_feedChunk_flatten cs1 ⟨[], [], []⟩ (by simp)
  have h2 := foldl_feedChunk_flatten cs2 ⟨[], [], []⟩ (by simp)
  rw [runDecoder, h1, runDecoder, h2, h]

/-- Witness for C2: a split on line boundaries versus a split in the
middle of a JSON record of the same stream. -/
theorem c2_chunk_boundary_invariance_witness :
    runDecoder
        ["data: \x7b\"choices\":[\x7b\"delta\":\x7b\"content\":\"Hel\"\x7d\x7d]\x7d\n".toList,
         "data: \x7b\"choices\":[\x7b\"delta\":\x7b\"content\":\"lo\"\x7d\x7d]\x7d\n".toList]
      = runDecoder
        ["data: \x7b\"choi".toList,
         "ces\":[\x7b\"delta\":\x7b\"content\":\"Hel\"\x7d\x7d]\x7d\nda".toList,
         "ta: \x7b\"choices\":[\x7b\"delta\":\x7b\"content\":\"lo\"\x7d\x7d]\x7d\n".toList] :=
  c2_chunk_boundary_invariance _ _ (by decide)

/-- Counterexample for C3: for cumulative chunks `"a"`, `"ab"` (the first a
strict prefix of the second) the native adapter does not pass `c1, c2` to
the callback and does not return the last chunk; it concatenates the
chunk texts instead. -/
theorem c3_counterexample :
    "a".toList <+: "ab".toList ∧
    (geminiStream ["a", "ab"]).1 ≠ ["a", "ab"] ∧
    (geminiStream ["a", "ab"]).2 ≠ "ab" := by
  refine ⟨⟨['b'], by decide⟩, by decide, by decide⟩

/-- Amended claim C3: the native adapter treats each chunk text as an
incremental delta: after every non-empty chunk the callback receives the
concatenation of all chunk texts so far, and the returned string is the
concatenation of all chunk texts. -/
theorem c3_amended_incremental (chunks : List String) :
    (geminiStream chunks).1 = cumConcats "" chunks ∧
    (geminiStream chunks).2 = String.join chunks := by
  rw [geminiStream, geminiStream_go chunks [] ""]
  constructor
  · simp
  · simp [String.empty_append]

/-- Counterexample for C4: an adapter failure that does **not** signal HTTP
status 413 — a 500 whose body merely mentions the number 413 — is also
rewritten to the guidance message instead of propagating unchanged, so
the `if and only if HTTP status 413` reading of the claim fails. -/
theorem c4_counterexample :
    generateCaseAnalysis ⟨AIProvider.openrouter, "key", "m", none, none⟩
        (Except.ok "")
        (Except.error (httpErrorMessage 500 "context window is 4130 tokens"))
      = Except.error payloadTooLargeMsg ∧
    payloadTooLargeMsg ≠ httpErrorMessage 500 "context window is 4130 tokens" := by
  constructor
  · unfold generateCaseAnalysis
    rw [if_neg (by decide)]
    simp only [show (AIProvider.openrouter = AIProvider.google) = False by simp,
      if_false]
    rw [if_pos (by decide)]
  · decide

/-- Amended claim C4: after the credential check passes, the dispatcher
rewrites an adapter error into the fixed user-facing guidance message
exactly when the error message contains the substring `413` (which is the
case for every true HTTP-413 failure produced by the HTTP adapter, whose
message embeds the status code); every error message without that
substring propagates unchanged. -/
theorem c4_amended_413_substring (s : AppSettings) (n h : Except String String)
    (m : String)
    (hauth : ¬(s.apiKey = "" ∧ s.provider ≠ AIProvider.local))
    (hsel : (if s.provider = AIProvider.google then n else h) = Except.error m) :
    (containsSub "413" m = true →
      generateCaseAnalysis s n h = Except.error payloadTooLargeMsg) ∧
    (containsSub "413" m = false →
      generateCaseAnalysis s n h = Except.error m) ∧
    (∀ body, containsSub "413" (httpErrorMessage 413 body) = true) := by
  refine ⟨?_, ?_, contains413_httpError⟩
  · intro hc
    unfold generateCaseAnalysis
    rw [if_neg hauth, hsel]
    simp [hc]
  · intro hc
    unfold generateCaseAnalysis
    rw [if_neg hauth, hsel]
    simp [hc]

/-- Witness for C4 at a concrete 413 failure and a concrete unrelated
failure. -/
theorem c4_amended_413_substring_witness :
    generateCaseAnalysis ⟨AIProvider.openrouter, "key", "m", none, none⟩
        (Except.ok "") (Except.error (httpErrorMessage 413 "Payload Too Large"))
      = Except.error payloadTooLargeMsg ∧
    generateCaseAnalysis ⟨AIProvider.openrouter, "key", "m", none, none⟩
        (Except.ok "") (Except.error (httpErrorMessage 500 "upstream down"))
      = Except.error (httpErrorMessage 500 "upstream down") := by
  constructor
  · exact (c4_amended_413_substring ⟨AIProvider.openrouter, "key", "m", none, none⟩
      (Except.ok "") (Except.error (httpErrorMessage 413 "Payload Too Large"))
      (httpErrorMessage 413 "Payload Too Large") (by decide) rfl).1 (by decide)
  · exact (c4_amended_413_substring ⟨AIProvider.openrouter, "key", "m", none, none⟩
      (Except.ok "") (Except.error (httpErrorMessage 500 "upstream down"))
      (httpErrorMessage 500 "upstream down") (by decide) rfl).2.1 (by decide)

/-- Claim C5: with an empty `apiKey` and a provider other than `local` the
dispatcher fails with the authentication error regardless of either
adapter outcome (no network call can influence the result); with
provider `local` and an empty `apiKey` the dispatcher proceeds to the
HTTP adapter: a successful adapter outcome is returned as-is, and a
failed one never turns into the authentication error. -/
theorem c5_auth_precondition :
    (∀ (s : AppSettings) (n h : Except String String),
      s.apiKey = "" → s.provider ≠ AIProvider.local →
      generateCaseAnalysis s n h = Except.error authErrorMsg) ∧
    (∀ (s : AppSettings) (n h : Except String String),
      s.provider = AIProvider.local → s.apiKey = "" →
      (∀ t, h = Except.ok t → generateCaseAnalysis s n h = Except.ok t) ∧
      (∀ m, h = Except.error m → m ≠ authErrorMsg →
        generateCaseAnalysis s n h ≠ Except.error authErrorMsg)) := by
  constructor
  · intro s n h hk hp
    unfold generateCaseAnalysis
    rw [if_pos ⟨hk, hp⟩]
  · intro s n h hp hk
    have hcond : ¬(s.apiKey = "" ∧ s.provider ≠ AIProvider.local) := by
      rw [hp]; simp
    have hsel : (if s.provider = AIProvider.google then n else h) = h := by
      rw [hp]; simp
    constructor
    · intro t ht
      unfold generateCaseAnalysis
      rw [if_neg hcond, hsel, ht]
    · intro m hm hma
      unfold generateCaseAnalysis
      rw [if_neg hcond, hsel, hm]
      by_cases hc : containsSub "413" m = true
      · simp only [hc, if_true]
        intro he
        have : payloadTooLargeMsg = authErrorMsg := Except.error.inj he
        exact absurd this (by decide)
      · simp only [Bool.not_eq_true] at hc
        show (if containsSub "413" m = true then
                (Except.error payloadTooLargeMsg : Except String String)
              else Except.error m) ≠ Except.error authErrorMsg
        rw [hc]
        simp only [Bool.false_eq_true, if_false]
        intro he
        exact hma (Except.error.inj he)

/-- Witness for C5 at concrete settings with an empty key. -/
theorem c5_auth_precondition_witness :
    generateCaseAnalysis ⟨AIProvider.openrouter, "", "m", none, none⟩
        (Except.ok "x") (Except.ok "y") = Except.error authErrorMsg ∧
    generateCaseAnalysis ⟨AIProvider.local, "", "m", none, none⟩
        (Except.ok "x") (Except.ok "y") = Except.ok "y" := by
  constructor
  · exact c5_auth_precondition.1 ⟨AIProvider.openrouter, "", "m", none, none⟩
      (Except.ok "x") (Except.ok "y") rfl (by decide)
  · exact (c5_auth_precondition.2 ⟨AIProvider.local, "", "m", none, none⟩
      (Except.ok "x") (Except.ok "y") rfl rfl).1 "y" rfl

/-- Claim C6: the message list of the HTTP adapter is an optional leading system
message (present exactly when the system instruction is set, i.e. truthy)
followed by exactly one user message whose content is the prompt text
part first and then, per attachment in input order: an image-reference
part with the unchanged base64 payload in a data URI for `image/` MIME
types; the decoded text wrapped in FILE START / FILE END markers naming
the file for plain-text, markdown or JSON MIME types (when the payload
decodes); a disclosure text part naming the file otherwise. -/
theorem c6_message_construction (prompt : String) (files : List AttachedFile)
    (s : AppSettings) :
    buildMessages prompt files s =
      (if sysInstrSet s then
        [ChatMessage.mk "system" (MsgContent.str (s.systemInstruction.getD ""))]
       else []) ++
      [ChatMessage.mk "user"
        (MsgContent.parts (ContentPart.text prompt :: files.flatMap attachmentParts))] ∧
    (∀ f : AttachedFile, strStartsWith "image/" f.type = true →
      attachmentParts f = [ContentPart.imageUrl ("data:" ++ f.type ++ ";base64," ++ f.data)]) ∧
    (∀ (f : AttachedFile) (decoded : String),
      (f.type = "text/plain" ∨ f.type = "text/markdown" ∨ f.type = "application/json") →
      atob f.data = some decoded →
      attachmentParts f = [ContentPart.text (fileBlock f.name decoded)]) ∧
    (∀ f : AttachedFile, strStartsWith "image/" f.type = false →
      ¬(f.type = "text/plain" ∨ f.type = "text/markdown" ∨ f.type = "application/json") →
      attachmentParts f = [ContentPart.text (disclosureNote f)]) := by
  refine ⟨?_, ?_, ?_, ?_⟩
  · rw [buildMessages, userContent, foldl_push_flatMap]
    cases hsi : s.systemInstruction with
    | none => simp [sysInstrSet, hsi]
    | some t =>
      by_cases ht : t = ""
      · simp [sysInstrSet, hsi, ht]
      · simp [sysInstrSet, hsi, ht]
  · intro f himg
    unfold attachmentParts
    rw [if_pos himg]
  · intro f decoded htype hdec
    unfold attachmentParts
    rcases htype with h | h | h <;>
      rw [h, if_neg (by decide), if_pos (by decide), hdec]
  · intro f himg htype
    unfold attachmentParts
    rw [if_neg (by simp [himg]),
        if_neg (by simp only [Bool.or_eq_true, decide_eq_true_eq, not_or] at htype ⊢; tauto)]

/-- Witness for C6 at a png attachment and a decodable text attachment. -/
theorem c6_message_construction_witness :
    attachmentParts ⟨"pic.png", "image/png", 4, "AAAA"⟩
      = [ContentPart.imageUrl ("data:" ++ "image/png" ++ ";base64," ++ "AAAA")] ∧
    attachmentParts ⟨"note.txt", "text/plain", 5, "SGVsbG8="⟩
      = [ContentPart.text (fileBlock "note.txt" "Hello")] := by
  constructor
  · exact (c6_message_construction "" [] ⟨AIProvider.local, "", "", none, none⟩).2.1
      ⟨"pic.png", "image/png", 4, "AAAA"⟩ (by decide)
  · exact (c6_message_construction "" [] ⟨AIProvider.local, "", "", none, none⟩).2.2.1
      ⟨"note.txt", "text/plain", 5, "SGVsbG8="⟩ "Hello" (Or.inl rfl) (by decide)

/-- Counterexample for C7: a line that does **not** start with `data: ` (it
has a leading space) is nevertheless processed, because the decoder trims
each line before testing the prefix; so the untrimmed-prefix reading
of the claim fails. -/
theorem c7_counterexample :
    dataPrefix.isPrefixOf
        " data: \x7b\"choices\":[\x7b\"delta\":\x7b\"content\":\"A\"\x7d\x7d]\x7d".toList
      = false ∧
    procLine ([], [])
        " data: \x7b\"choices\":[\x7b\"delta\":\x7b\"content\":\"A\"\x7d\x7d]\x7d".toList
      ≠ ([], []) := by
  constructor
  · decide
  · decide

/-- Amended claim C7: each complete line is whitespace-trimmed first; a line is
ignored unless its trimmed form starts with `data: `; the sentinel
payload `[DONE]` is ignored without any other action; and a payload that
fails structured parsing is skipped without failing the request, so a
malformed line between two well-formed `data:` lines does not prevent
delivery of the deltas before and after it. -/
theorem c7_amended_line_handling :
    (∀ (acc : List Char × List (List Char)) (line : List Char),
      dataPrefix.isPrefixOf (trimChars line) = false → procLine acc line = acc) ∧
    (∀ (acc : List Char × List (List Char)) (line : List Char),
      dataPrefix.isPrefixOf (trimChars line) = true →
      (trimChars line).drop 6 = doneSentinel → procLine acc line = acc) ∧
    (∀ (acc : List Char × List (List Char)) (line : List Char),
      dataPrefix.isPrefixOf (trimChars line) = true →
      (trimChars line).drop 6 ≠ doneSentinel →
      extractDelta ((trimChars line).drop 6) = none → procLine acc line = acc) ∧
    (∀ (full : List Char) (cbs : List (List Char)) (l1 lbad l2 d1 d2 : List Char),
      dataPrefix.isPrefixOf (trimChars l1) = true →
      (trimChars l1).drop 6 ≠ doneSentinel →
      extractDelta ((trimChars l1).drop 6) = some d1 → d1 ≠ [] →
      dataPrefix.isPrefixOf (trimChars lbad) = true →
      (trimChars lbad).drop 6 ≠ doneSentinel →
      extractDelta ((trimChars lbad).drop 6) = none →
      dataPrefix.isPrefixOf (trimChars l2) = true →
      (trimChars l2).drop 6 ≠ doneSentinel →
      extractDelta ((trimChars l2).drop 6) = some d2 → d2 ≠ [] →
      [l1, lbad, l2].foldl procLine (full, cbs) =
        (full ++ d1 ++ d2, cbs ++ [full ++ d1, full ++ d1 ++ d2])) := by
  refine ⟨?_, ?_, ?_, ?_⟩
  · intro acc line hpre
    unfold procLine
    rw [if_neg (by simp [hpre])]
  · intro acc line hpre hdone
    unfold procLine
    rw [if_pos hpre, if_pos hdone]
  · intro acc line hpre hdone hmal
    unfold procLine
    rw [if_pos hpre, if_neg hdone, hmal]
  · intro full cbs l1 lbad l2 d1 d2 hp1 hd1 he1 hne1 hpb hdb heb hp2 hd2 he2 hne2
    have step1 : procLine (full, cbs) l1 = (full ++ d1, cbs ++ [full ++ d1]) := by
      unfold procLine
      rw [if_pos hp1, if_neg hd1, he1]
      simp [hne1]
    have stepb : procLine (full ++ d1, cbs ++ [full ++ d1]) lbad
        = (full ++ d1, cbs ++ [full ++ d1]) := by
      unfold procLine
      rw [if_pos hpb, if_neg hdb, heb]
    have step2 : procLine (full ++ d1, cbs ++ [full ++ d1]) l2
        = (full ++ d1 ++ d2, cbs ++ [full ++ d1, full ++ d1 ++ d2]) := by
      unfold procLine
      rw [if_pos hp2, if_neg hd2, he2]
      simp [hne2]
    simp only [List.foldl_cons, List.foldl_nil, step1, stepb, step2]

/-- Witness for C7 at concrete lines: an indented valid line, a `[DONE]`
line, a malformed line, and a malformed line between two valid deltas. -/
theorem c7_amended_line_handling_witness :
    procLine (['x'], [['x']]) "event: ping".toList = (['x'], [['x']]) ∧
    procLine (['x'], [['x']]) "data: [DONE]".toList = (['x'], [['x']]) ∧
    procLine (['x'], [['x']]) "data: \x7boops".toList = (['x'], [['x']]) ∧
    ["data: \x7b\"choices\":[\x7b\"delta\":\x7b\"content\":\"A\"\x7d\x7d]\x7d".toList,
     "data: \x7boops".toList,
     "data: \x7b\"choices\":[\x7b\"delta\":\x7b\"content\":\"B\"\x7d\x7d]\x7d".toList].foldl
        procLine ([], [])
      = ([] ++ ['A'] ++ ['B'], [] ++ [[] ++ ['A'], [] ++ ['A'] ++ ['B']]) := by
  refine ⟨?_, ?_, ?_, ?_⟩
  · exact c7_amended_line_handling.1 (['x'], [['x']]) "event: ping".toList (by decide)
  · exact c7_amended_line_handling.2.1 (['x'], [['x']]) "data: [DONE]".toList
      (by decide) (by decide)
  · exact c7_amended_line_handling.2.2.1 (['x'], [['x']]) "data: \x7boops".toList
      (by decide) (by decide) (by decide)
  · exact c7_amended_line_handling.2.2.2 [] []
      "data: \x7b\"choices\":[\x7b\"delta\":\x7b\"content\":\"A\"\x7d\x7d]\x7d".toList
      "data: \x7boops".toList
      "data: \x7b\"choices\":[\x7b\"delta\":\x7b\"content\":\"B\"\x7d\x7d]\x7d".toList
      ['A'] ['B']
      (by decide) (by decide) (by decide) (by decide) (by decide) (by decide)
      (by decide) (by decide) (by decide) (by decide) (by decide)

/-- Claim C8: the outbound HTTP request targets `base ++ "/chat/completions"`
where `base` is the configured base URL with one trailing slash stripped
when present (and non-empty), else the public aggregator endpoint for
the aggregator provider or the local-loopback default otherwise; the body
carries the configured model with the fixed fallback, the message list,
`stream = true`, `max_tokens = 8192` and `temperature = 0.3`; the headers
always include the content type and the bearer authorization, and the two
aggregator identification headers are present exactly when the provider
is the hosted aggregator. -/
theorem c8_http_request_shape (prompt : String) (files : List AttachedFile)
    (s : AppSettings) (origin : String) :
    (∀ u, s.baseUrl = some u → u ≠ "" →
      (buildHttpRequest prompt files s origin).url
        = stripTrailingSlash u ++ "/chat/completions") ∧
    ((s.baseUrl = none ∨ s.baseUrl = some "") →
      (buildHttpRequest prompt files s origin).url
        = (if s.provider = AIProvider.openrouter then "https://openrouter.ai/api/v1"
           else "http://localhost:11434/v1") ++ "/chat/completions") ∧
    (buildHttpRequest prompt files s origin).model
      = (if s.model = "" then "qwen2.5:14b" else s.model) ∧
    (buildHttpRequest prompt files s origin).messages = buildMessages prompt files s ∧
    (buildHttpRequest prompt files s origin).stream = true ∧
    (buildHttpRequest prompt files s origin).maxTokens = 8192 ∧
    (buildHttpRequest prompt files s origin).temperature = 3 / 10 ∧
    ("Content-Type", "application/json") ∈ (buildHttpRequest prompt files s origin).headers ∧
    ("Authorization", "Bearer " ++ s.apiKey) ∈ (buildHttpRequest prompt files s origin).headers ∧
    ((("HTTP-Referer", origin) ∈ (buildHttpRequest prompt files s origin).headers ∧
      ("X-Title", "AuditAI") ∈ (buildHttpRequest prompt files s origin).headers)
      ↔ s.provider = AIProvider.openrouter) := by
  refine ⟨?_, ?_, rfl, rfl, rfl, rfl, rfl, ?_, ?_, ?_⟩
  · intro u hu hne
    simp [buildHttpRequest, resolveBaseUrl, hu, hne]
  · intro hb
    rcases hb with hb | hb
    · cases hp : s.provider <;>
        simp [buildHttpRequest, resolveBaseUrl, defaultBaseUrl, hb, hp, stripTrailingSlash]
    · cases hp : s.provider <;>
        simp [buildHttpRequest, resolveBaseUrl, defaultBaseUrl, hb, hp, stripTrailingSlash]
  · simp [buildHttpRequest]
  · simp [buildHttpRequest]
  · cases hp : s.provider <;> simp [buildHttpRequest, hp]

/-- Witness for C8 at a configured base URL with a trailing slash and at
an absent base URL for both HTTP providers. -/
theorem c8_http_request_shape_witness :
    (buildHttpRequest "p" [] ⟨AIProvider.local, "", "", some "http://x/", none⟩ "o").url
      = stripTrailingSlash "http://x/" ++ "/chat/completions" ∧
    (buildHttpRequest "p" [] ⟨AIProvider.openrouter, "k", "", none, none⟩ "o").url
      = (if AIProvider.openrouter = AIProvider.openrouter then "https://openrouter.ai/api/v1"
         else "http://localhost:11434/v1") ++ "/chat/completions" ∧
    (buildHttpRequest "p" [] ⟨AIProvider.local, "", "", none, none⟩ "o").url
      = (if AIProvider.local = AIProvider.openrouter then "https://openrouter.ai/api/v1"
         else "http://localhost:11434/v1") ++ "/chat/completions" := by
  refine ⟨?_, ?_, ?_⟩
  · exact (c8_http_request_shape "p" [] ⟨AIProvider.local, "", "", some "http://x/", none⟩
      "o").1 "http://x/" rfl (by decide)
  · exact (c8_http_request_shape "p" [] ⟨AIProvider.openrouter, "k", "", none, none⟩
      "o").2.1 (Or.inl rfl)
  · exact (c8_http_request_shape "p" [] ⟨AIProvider.local, "", "", none, none⟩
      "o").2.1 (Or.inl rfl)

/-- Claim C9: the native request body is one `inlineData` part per attachment,
carrying MIME type and base64 payload in input order, followed last by
the text part with the prompt; output is capped at 8192 tokens; and the
thinking budget is explicitly zero exactly when the selected model
identifier is not in the `gemini-2.5` family. -/
theorem c9_native_request_shape (prompt : String) (files : List AttachedFile)
    (s : AppSettings) :
    (buildGeminiRequest prompt files s).parts
      = files.map (fun f => GeminiPart.inlineData f.type f.data) ++ [GeminiPart.text prompt] ∧
    (buildGeminiRequest prompt files s).maxOutputTokens = 8192 ∧
    ((buildGeminiRequest prompt files s).thinkingBudget = some 0 ↔
      containsSub "gemini-2.5" (buildGeminiRequest prompt files s).model = false) := by
  refine ⟨?_, rfl, ?_⟩
  · simp [buildGeminiRequest, foldl_push_map]
  · by_cases hc : containsSub "gemini-2.5"
        (if s.model = "" then "gemini-3-pro-preview" else s.model) = true
    · simp [buildGeminiRequest, hc]
    · simp only [Bool.not_eq_true] at hc
      simp [buildGeminiRequest, hc]

/-- Claim C10: in the HTTP adapter, a text-like attachment (plain text,
markdown, or JSON MIME type) whose payload is not valid base64 produces
no content part at all, and the user content of a request containing it
equals the user content of the same request without it. -/
theorem c10_undecodable_text_attachment (f : AttachedFile) (prompt : String)
    (pre post : List AttachedFile)
    (htype : f.type = "text/plain" ∨ f.type = "text/markdown" ∨ f.type = "application/json")
    (hdec : atob f.data = none) :
    attachmentParts f = [] ∧
    userContent prompt (pre ++ f :: post) = userContent prompt (pre ++ post) := by
  have hparts : attachmentParts f = [] := by
    unfold attachmentParts
    rcases htype with h | h | h <;>
      rw [h, if_neg (by decide), if_pos (by decide), hdec]
  refine ⟨hparts, ?_⟩
  rw [userContent, userContent, foldl_push_flatMap, foldl_push_flatMap]
  simp [hparts]

/-- Witness for C10: an invalid-base64 plain-text attachment next to an
image attachment. -/
theorem c10_undecodable_text_attachment_witness :
    attachmentParts ⟨"bad.txt", "text/plain", 3, "???"⟩ = [] ∧
    userContent "p" ([⟨"pic.png", "image/png", 4, "AAAA"⟩] ++ ⟨"bad.txt", "text/plain", 3, "???"⟩ :: [])
      = userContent "p" ([⟨"pic.png", "image/png", 4, "AAAA"⟩] ++ []) :=
  c10_undecodable_text_attachment ⟨"bad.txt", "text/plain", 3, "???"⟩ "p"
    [⟨"pic.png", "image/png", 4, "AAAA"⟩] [] (Or.inl rfl) (by decide)
